import Mathlib

/-!
# FileFinder game logic: shallow embedding

A shallow embedding of `src/gameLogic.js` (the file-discovery and
distance/comparison core of the FileFinder guessing game).

Modelling conventions:
* Paths are `String`s over the POSIX separator `'/'`; the Node `path`
  helpers used by the source (`normalize`, `dirname`, `basename`, `join`)
  are embedded below as structurally recursive functions over `List Char`,
  faithful to the algorithms of Node's `path.posix`.
* JS numbers that hold integers are `Int` (with `Int.natAbs` for
  `Math.abs`), JS array lengths are `Nat`, `Math.random()` is an explicit
  rational parameter in `[0, 1)`.
* The filesystem is an explicit tree (`FSNode`): `readdir` failures are the
  `denied` constructor and entries that are neither regular files nor
  directories are `other`, so the `try/catch` recovery of the source is
  total pattern matching here.
* `null`/`undefined` arguments are `Option`; the JS falsy test
  `!previousGuessPath` is `none` or the empty string.
* The progress callback only feeds an external sink and never affects the
  returned data; it is not modelled.
-/

/-- Split a character list on a separator character: model of JS
`String.prototype.split` with a one-character separator
(`"".split(sep)` is `[""]`, i.e. `[[]]`). -/
def splitOnSep (sep : Char) (cs : List Char) : List (List Char) :=
  match cs with
  | [] => [[]]
  | c :: rest =>
    let r := splitOnSep sep rest
    if c = sep then [] :: r
    else
      match r with
      | [] => [[c]]
      | g :: gs => (c :: g) :: gs

/-- Join segments with `'/'`. -/
def joinSegs (segs : List (List Char)) : List Char :=
  match segs with
  | [] => []
  | [s] => s
  | s :: rest => s ++ '/' :: joinSegs rest

/-- Resolve `"."` and `".."` segments, as Node's `normalizeString` does:
empty and `"."` segments are dropped, `".."` pops the previous segment,
and leading `".."`s are kept only for relative paths. -/
def resolveSegments (segs : List (List Char)) (allowAboveRoot : Bool) : List (List Char) :=
  segs.foldl
    (fun acc seg =>
      if seg = [] ∨ seg = ['.'] then acc
      else if seg = ['.', '.'] then
        if acc = [] ∨ acc.getLast? = some ['.', '.'] then
          (if allowAboveRoot then acc ++ [seg] else acc)
        else acc.dropLast
      else acc ++ [seg])
    []

/-- Model of Node `path.normalize` (POSIX separator), used by
`getDirectoryDepth` in the source. -/
def normalizePath (p : String) : String :=
  if p = "" then "."
  else
    let cs := p.data
    let isAbsolute := cs.head? = some '/'
    let trailingSeparator := cs.getLast? = some '/'
    let resolved := joinSegs (resolveSegments (splitOnSep '/' cs) (!isAbsolute))
    if resolved = [] then
      if isAbsolute then "/" else if trailingSeparator then "./" else "."
    else
      let r1 := if trailingSeparator then resolved ++ ['/'] else resolved
      String.mk (if isAbsolute then '/' :: r1 else r1)

/-- Model of Node `path.dirname` (POSIX): scan back over trailing
separators, then back to the previous separator; `endIdx` is the index the
source's loop computes, `0` standing for "not found".
Source: `getParentDirectory` in `src/gameLogic.js`. -/
def getParentDirectory (filePath : String) : String :=
  if filePath = "" then "."
  else
    let hasRoot := filePath.data.head? = some '/'
    let rest := filePath.data.drop 1
    let endIdx := ((rest.reverse.dropWhile (fun c => c = '/')).dropWhile (fun c => c ≠ '/')).length
    if endIdx = 0 then (if hasRoot then "/" else ".")
    else if hasRoot ∧ endIdx = 1 then "//"
    else String.mk (filePath.data.take endIdx)

/-- Model of Node `path.basename` (POSIX): the final segment, ignoring
trailing separators. -/
def pathBasename (filePath : String) : String :=
  String.mk ((filePath.data.reverse.dropWhile (fun c => c = '/')).takeWhile (fun c => c ≠ '/')).reverse

/-- Model of JS `String.prototype.toLowerCase` (case folding per
character). -/
def toLowerString (s : String) : String :=
  String.mk (s.data.map Char.toLower)

/-- Model of Node `path.join` for two components (POSIX): concatenate the
nonempty components with a separator and normalize. -/
def joinPath (a b : String) : String :=
  if a = "" ∧ b = "" then "."
  else if a = "" then normalizePath b
  else if b = "" then normalizePath a
  else normalizePath (a ++ "/" ++ b)

/-- Model of JS `s.charCodeAt(0) || 0`: the first character's code, or
`0` for the empty string (`charCodeAt` of an empty string is `NaN`,
which `|| 0` turns into `0`). -/
def charCodeAt0 (s : String) : Nat :=
  match s.data with
  | [] => 0
  | c :: _ => c.toNat

/-- The path-separator-delimited segments of the normalized path, with
empty segments dropped: `normalized.split(path.sep).filter(part =>
part.length > 0)` in `getDirectoryDepth` (src/gameLogic.js:10-11). -/
def pathSegments (filePath : String) : List String :=
  ((splitOnSep '/' (normalizePath filePath).data).map String.mk).filter
    (fun part => part.length > 0)

/-- `getDirectoryDepth` (src/gameLogic.js:9-14): number of directory
levels of a path, `Math.max(0, parts.length - 1)`. -/
def getDirectoryDepth (filePath : String) : Int :=
  max 0 (((pathSegments filePath).length : Int) - 1)

/-- The two comparison methods of a `Distance`. -/
inductive DistanceMethod where
  | alphabetical
  | depth
deriving DecidableEq

/-- The object returned by `calculateDistance`: method tag, magnitude and
the method-specific metadata fields of the JS object (absent fields are
`none`). -/
structure Distance where
  method : DistanceMethod
  distance : Nat
  guessParent : Option String := none
  targetParent : Option String := none
  guessDepth : Option Int := none
  targetDepth : Option Int := none
deriving DecidableEq

/-- `calculateDistance` (src/gameLogic.js:31-64): same parent folder
(case-insensitively) means an alphabetical distance between the first
characters of the lowercased base names; otherwise the absolute
difference of the directory depths. -/
def calculateDistance (guessPath targetPath : String) : Distance :=
  let guessParent := getParentDirectory guessPath
  let targetParent := getParentDirectory targetPath
  if toLowerString guessParent = toLowerString targetParent then
    let guessName := toLowerString (pathBasename guessPath)
    let targetName := toLowerString (pathBasename targetPath)
    let guessChar := charCodeAt0 guessName
    let targetChar := charCodeAt0 targetName
    { method := .alphabetical
      distance := ((guessChar : Int) - (targetChar : Int)).natAbs
      guessParent := some guessParent
      targetParent := some targetParent }
  else
    let guessDepth := getDirectoryDepth guessPath
    let targetDepth := getDirectoryDepth targetPath
    { method := .depth
      distance := (guessDepth - targetDepth).natAbs
      guessDepth := some guessDepth
      targetDepth := some targetDepth }

/-- The verdict returned by `compareGuesses`. -/
inductive Verdict where
  | closer
  | farther
  | same
  | first
deriving DecidableEq

/-- `compareGuesses` (src/gameLogic.js:73-109). The previous guess is
`Option String`; the JS guard `!previousGuessPath` is true for `null`,
`undefined` and the empty string. The final magnitude comparison of the
source (lines 102-108) is unreachable, since differing methods mean
exactly one of the two distances is alphabetical; it is kept as written. -/
def compareGuesses (newGuessPath : String) (previousGuessPath : Option String)
    (targetPath : String) : Verdict :=
  match previousGuessPath with
  | none => .first
  | some prev =>
    if prev = "" then .first
    else
      let newDistance := calculateDistance newGuessPath targetPath
      let previousDistance := calculateDistance prev targetPath
      if newDistance.method = previousDistance.method then
        if newDistance.distance < previousDistance.distance then .closer
        else if newDistance.distance > previousDistance.distance then .farther
        else .same
      else if newDistance.method = .alphabetical then .closer
      else if previousDistance.method = .alphabetical then .farther
      else
        if newDistance.distance < previousDistance.distance then .closer
        else if newDistance.distance > previousDistance.distance then .farther
        else .same

/-- A filesystem tree node, as `scanDirectory` observes it through
the file-type-reporting listing of `fs.promises.readdir`:
a regular file, a readable directory, a directory whose listing fails
(`denied`: the `catch` in the source skips it), or an entry that is
neither a regular file nor a directory (`other`: both `isFile()` and
`isDirectory()` are false, so it is skipped). -/
inductive FSNode where
  | file (name : String)
  | dir (name : String) (children : List FSNode)
  | denied (name : String)
  | other (name : String)

/-- The `entry.name` a directory listing reports for a node. -/
def FSNode.name : FSNode → String
  | .file n => n
  | .dir n _ => n
  | .denied n => n
  | .other n => n

/-- The skip list of `scanDirectory` (src/gameLogic.js:150). -/
def skipDirs : List String :=
  ["$Recycle.Bin", "System Volume Information", "Windows", "node_modules", ".git"]

mutual
/-- `scanDirectory` (src/gameLogic.js:121-165): stop once
`currentDepth >= maxDepth` or the shared file list has reached
`maxFiles`; otherwise list the directory (a failing or non-directory
listing is swallowed, returning the list unchanged) and fold over the
entries. -/
def scanDirectory (node : FSNode) (dirPath : String) (maxDepth currentDepth : Nat)
    (fileList : List String) (maxFiles : Nat) : List String :=
  if currentDepth ≥ maxDepth ∨ fileList.length ≥ maxFiles then fileList
  else
    match node with
    | .dir _ children => scanEntries children dirPath maxDepth currentDepth fileList maxFiles
    | _ => fileList

/-- The `for (const entry of entries)` loop of `scanDirectory`
(src/gameLogic.js:135-158): break once the cap is reached; append regular
files; recurse into directories whose name is not in `skipDirs` with
`currentDepth + 1`; skip everything else. -/
def scanEntries (entries : List FSNode) (dirPath : String) (maxDepth currentDepth : Nat)
    (fileList : List String) (maxFiles : Nat) : List String :=
  match entries with
  | [] => fileList
  | entry :: rest =>
    if fileList.length ≥ maxFiles then fileList
    else
      let fullPath := joinPath dirPath entry.name
      let fileList1 :=
        match entry with
        | .file _ => fileList ++ [fullPath]
        | .dir n _ =>
          if skipDirs.contains n then fileList
          else scanDirectory entry fullPath maxDepth (currentDepth + 1) fileList maxFiles
        | .denied n =>
          if skipDirs.contains n then fileList
          else scanDirectory entry fullPath maxDepth (currentDepth + 1) fileList maxFiles
        | .other _ => fileList
      scanEntries rest dirPath maxDepth currentDepth fileList1 maxFiles
end

mutual
/-- Specification-side reference set for the depth bound: the full paths
of the files of the tree that lie at most `k` directory levels below
`dirPath` (a file directly inside `dirPath` lies one level below it).
Skip lists and file caps play no role here. -/
def filesWithin (k : Nat) (dirPath : String) (node : FSNode) : List String :=
  match node with
  | .dir _ children => if k = 0 then [] else entriesWithin k dirPath children
  | .file _ => []
  | .denied _ => []
  | .other _ => []

/-- Entry-list companion of `filesWithin`. -/
def entriesWithin (k : Nat) (dirPath : String) (entries : List FSNode) : List String :=
  match entries with
  | [] => []
  | entry :: rest =>
    (match entry with
     | .file _ => [joinPath dirPath entry.name]
     | .dir _ _ => filesWithin (k - 1) (joinPath dirPath entry.name) entry
     | .denied _ => []
     | .other _ => []) ++ entriesWithin k dirPath rest
end

mutual
/-- Specification-side reference set for the skip list: the full paths of
the files of the tree reachable without ever entering a directory whose
name is in `skipDirs`. Depth and cap limits play no role here. -/
def okFiles (dirPath : String) (node : FSNode) : List String :=
  match node with
  | .dir _ children => okEntries dirPath children
  | .file _ => []
  | .denied _ => []
  | .other _ => []

/-- Entry-list companion of `okFiles`. -/
def okEntries (dirPath : String) (entries : List FSNode) : List String :=
  match entries with
  | [] => []
  | entry :: rest =>
    (match entry with
     | .file _ => [joinPath dirPath entry.name]
     | .dir n _ =>
       if skipDirs.contains n then [] else okFiles (joinPath dirPath entry.name) entry
     | .denied _ => []
     | .other _ => []) ++ okEntries dirPath rest
end

/-- Model of `process.env.HOME || process.env.USERPROFILE || 'C:\\'`
(src/gameLogic.js:173): unset variables are `none`, and the JS `||`
also falls through on the empty string. -/
def resolveUserProfile (home userProfile : Option String) : String :=
  match home with
  | some h => if h = "" then (match userProfile with
      | some u => if u = "" then "C:\\" else u
      | none => "C:\\")
    else h
  | none =>
    match userProfile with
    | some u => if u = "" then "C:\\" else u
    | none => "C:\\"

/-- The fixed list of well-known roots (src/gameLogic.js:175-182). -/
def commonDirs (userProfile : String) : List String :=
  [joinPath userProfile "Documents",
   joinPath userProfile "Desktop",
   joinPath userProfile "Downloads",
   joinPath userProfile "Pictures",
   joinPath userProfile "Music",
   joinPath userProfile "Videos"]

/-- The surviving roots: `commonDirs.filter(dir => fs.existsSync(dir))`
(src/gameLogic.js:185). The filesystem is a map from path to tree node;
a path exists when the map is defined there. -/
def existingDirectories (env : String → Option FSNode) (userProfile : String) : List String :=
  (commonDirs userProfile).filter (fun dir => (env dir).isSome)

/-- The global cap shared across all roots, `totalMaxFiles = 20000`
(src/gameLogic.js:192). -/
def totalMaxFiles : Nat := 20000

/-- The root loop of `scanCommonDirectories` (src/gameLogic.js:194-221):
break once the global cap is reached, otherwise scan the next root with
`remainingSlots = totalMaxFiles - allFiles.length` and a fresh empty
accumulator, and concatenate. (`scanDirectory` is total here, so the
source's per-root `try/catch` has nothing to catch.) -/
def scanRootsLoop (env : String → Option FSNode) (dirs : List String)
    (allFiles : List String) : List String :=
  match dirs with
  | [] => allFiles
  | dir :: rest =>
    if allFiles.length ≥ totalMaxFiles then allFiles
    else
      let remainingSlots := totalMaxFiles - allFiles.length
      let files := scanDirectory ((env dir).getD (.other "")) dir 7 0 [] remainingSlots
      scanRootsLoop env rest (allFiles ++ files)

/-- `scanCommonDirectories` (src/gameLogic.js:172-228): filter the fixed
roots to those that exist, fail with the `NoAccessibleRoots` message if
none remain, scan them under the shared cap, fail with the `NoFilesFound`
message if nothing was found, and otherwise return the aggregate. -/
def scanCommonDirectories (env : String → Option FSNode)
    (home userProfile : Option String) : Except String (List String) :=
  let up := resolveUserProfile home userProfile
  let existingDirs := existingDirectories env up
  if existingDirs.length = 0 then .error "No accessible directories found"
  else
    let allFiles := scanRootsLoop env existingDirs []
    if allFiles.length = 0 then .error "No files found in any accessible directories"
    else .ok allFiles

/-- `selectTargetFile` (src/gameLogic.js:235-241): throw the
`EmptyCandidateSet` message on an empty list, otherwise return the entry
at `Math.floor(Math.random() * fileList.length)`. `Math.random()` is the
explicit parameter `rand`; out-of-range indexing (impossible for
`rand ∈ [0,1)`) is modelled by a default value. -/
def selectTargetFile (fileList : List String) (rand : ℚ) : Except String String :=
  if fileList.length = 0 then .error "No files available to select as target"
  else
    let randomIndex := (Int.floor (rand * (fileList.length : ℚ))).toNat
    .ok (fileList.getD randomIndex "")

/-- A small concrete filesystem used to instantiate the root-scanner
theorems: only `/home/u/Documents` exists, holding one file. -/
def sampleEnv : String → Option FSNode :=
  fun p =>
    if p = "/home/u/Documents" then some (.dir "Documents" [.file "a.txt"])
    else none

/-! ## Theorems -/

/-- Characterization of `compareGuesses` for a present, nonempty previous
guess: same methods compare magnitudes; differing methods let the
alphabetical side win unconditionally (the source's trailing magnitude
comparison is dead code). -/
theorem compareGuesses_some_eq (a b t : String) (hb : b ≠ "") :
    compareGuesses a (some b) t =
      (if (calculateDistance a t).method = (calculateDistance b t).method then
        (if (calculateDistance a t).distance < (calculateDistance b t).distance then .closer
         else if (calculateDistance b t).distance < (calculateDistance a t).distance then .farther
         else .same)
      else if (calculateDistance a t).method = .alphabetical then .closer
      else .farther) := by
  simp only [compareGuesses, if_neg hb]
  cases hA : (calculateDistance a t).method <;> cases hB : (calculateDistance b t).method <;>
    simp [hA, hB, gt_iff_lt]

/-- Claim C9: for every guess `g` and target `t`,
`compareGuesses(g, none, t)` returns `first`; and for previous guesses in
the `FilePath` domain (nonempty strings — the JS falsy test additionally
treats the empty string like an absent guess), `first` is returned only
in the no-previous-guess case. -/
theorem compareGuesses_first_spec :
    (∀ g t : String, compareGuesses g none t = .first) ∧
    (∀ g p t : String, p ≠ "" → compareGuesses g (some p) t ≠ .first) := by
  constructor
  · intro g t; rfl
  · intro g p t hp
    rw [compareGuesses_some_eq g p t hp]
    split
    · split
      · decide
      · split <;> decide
    · split <;> decide

/-- Witness for C9 at concrete paths. -/
theorem compareGuesses_first_spec_witness :
    compareGuesses "/home/docs/b.txt" none "/home/docs/z.txt" = .first ∧
    compareGuesses "/home/docs/b.txt" (some "/home/docs/a.txt") "/home/docs/z.txt" ≠ .first :=
  ⟨compareGuesses_first_spec.1 "/home/docs/b.txt" "/home/docs/z.txt",
   compareGuesses_first_spec.2 "/home/docs/b.txt" "/home/docs/a.txt" "/home/docs/z.txt"
     (by decide)⟩

/-- Claim C1: for a present, nonempty previous guess, if the two
distances to the target use different methods, the alphabetical side wins
unconditionally: verdict `closer` when the new guess's distance is
alphabetical, `farther` when the previous guess's is, regardless of
either magnitude. -/
theorem compareGuesses_method_mismatch (newGuess prevGuess target : String)
    (hp : prevGuess ≠ "")
    (hm : (calculateDistance newGuess target).method ≠
      (calculateDistance prevGuess target).method) :
    ((calculateDistance newGuess target).method = .alphabetical →
      compareGuesses newGuess (some prevGuess) target = .closer) ∧
    ((calculateDistance prevGuess target).method = .alphabetical →
      compareGuesses newGuess (some prevGuess) target = .farther) := by
  rw [compareGuesses_some_eq newGuess prevGuess target hp]
  constructor
  · intro hA
    rw [if_neg hm, if_pos hA]
  · intro hB
    have hA : (calculateDistance newGuess target).method ≠ .alphabetical := by
      intro h; exact hm (h.trans hB.symm)
    rw [if_neg hm, if_neg hA]

/-- Witness for C1: the spec's own scenario, where the depth-based
magnitude is smaller than the alphabetical one and the alphabetical guess
still wins, in both directions. -/
theorem compareGuesses_method_mismatch_witness :
    compareGuesses "/a/b/c/other.txt" (some "/x/file.txt") "/a/b/c/file.txt" = .closer ∧
    compareGuesses "/x/file.txt" (some "/a/b/c/other.txt") "/a/b/c/file.txt" = .farther ∧
    compareGuesses "/a/b/c/other.txt" (some "/q/w/e/file.txt") "/a/b/c/file.txt" = .closer :=
  ⟨(compareGuesses_method_mismatch "/a/b/c/other.txt" "/x/file.txt" "/a/b/c/file.txt"
      (by decide) (by decide)).1 (by decide),
   (compareGuesses_method_mismatch "/x/file.txt" "/a/b/c/other.txt" "/a/b/c/file.txt"
      (by decide) (by decide)).2 (by decide),
   (compareGuesses_method_mismatch "/a/b/c/other.txt" "/q/w/e/file.txt" "/a/b/c/file.txt"
      (by decide) (by decide)).1 (by decide)⟩

/-- Claim C10: over present guesses in the `FilePath` domain (nonempty
strings), `compareGuesses` is swap-antisymmetric: swapping the two
guesses exchanges `closer` and `farther` and preserves `same`; comparing
a guess against itself yields `same`. -/
theorem compareGuesses_swap_antisymm (a b t : String) (ha : a ≠ "") (hb : b ≠ "") :
    ((compareGuesses a (some b) t = .closer ↔ compareGuesses b (some a) t = .farther) ∧
     (compareGuesses a (some b) t = .same ↔ compareGuesses b (some a) t = .same)) ∧
    compareGuesses a (some a) t = .same := by
  rw [compareGuesses_some_eq a b t hb, compareGuesses_some_eq b a t ha,
    compareGuesses_some_eq a a t ha]
  refine ⟨?_, by simp⟩
  by_cases hm : (calculateDistance a t).method = (calculateDistance b t).method
  · rw [if_pos hm, if_pos hm.symm]
    rcases Nat.lt_trichotomy (calculateDistance a t).distance
      (calculateDistance b t).distance with h | h | h
    · rw [if_pos h, if_neg (Nat.lt_asymm h), if_pos h]
      exact ⟨by simp, by simp⟩
    · rw [if_neg (by omega), if_neg (by omega), if_neg (by omega), if_neg (by omega)]
      exact ⟨by simp, by simp⟩
    · rw [if_neg (Nat.lt_asymm h), if_pos h, if_pos h]
      exact ⟨by simp, by simp⟩
  · cases hA : (calculateDistance a t).method <;> cases hB : (calculateDistance b t).method <;>
      simp_all

/-- Witness for C10 at concrete paths (one alphabetical, one depth-based
guess against the target). -/
theorem compareGuesses_swap_antisymm_witness :
    ((compareGuesses "/a/b/c/other.txt" (some "/x/file.txt") "/a/b/c/file.txt" = .closer ↔
      compareGuesses "/x/file.txt" (some "/a/b/c/other.txt") "/a/b/c/file.txt" = .farther) ∧
     (compareGuesses "/a/b/c/other.txt" (some "/x/file.txt") "/a/b/c/file.txt" = .same ↔
      compareGuesses "/x/file.txt" (some "/a/b/c/other.txt") "/a/b/c/file.txt" = .same)) ∧
    compareGuesses "/a/b/c/other.txt" (some "/a/b/c/other.txt") "/a/b/c/file.txt" = .same :=
  compareGuesses_swap_antisymm "/a/b/c/other.txt" "/x/file.txt" "/a/b/c/file.txt"
    (by decide) (by decide)

/-- Claim C7: `calculateDistance(p, p)` always yields method
`alphabetical` and magnitude `0`; and `calculateDistance` is total,
every result carrying one of the two methods. -/
theorem calculateDistance_self_spec :
    ∀ p : String,
      (calculateDistance p p).method = .alphabetical ∧
      (calculateDistance p p).distance = 0 ∧
      ∀ g t : String,
        (calculateDistance g t).method = .alphabetical ∨
        (calculateDistance g t).method = .depth := by
  intro p
  refine ⟨by simp [calculateDistance], by simp [calculateDistance], ?_⟩
  intro g t
  by_cases h : toLowerString (getParentDirectory g) = toLowerString (getParentDirectory t) <;>
    simp [calculateDistance, h]

/-- Claim C8: `getDirectoryDepth` equals the segment count of the
normalized path (empty segments dropped) minus one, floored at `0`; it is
total with a non-negative result, and the empty segment never survives
normalization's filter. -/
theorem getDirectoryDepth_spec :
    ∀ p : String,
      0 ≤ getDirectoryDepth p ∧
      getDirectoryDepth p = max 0 (((pathSegments p).length : Int) - 1) ∧
      ((pathSegments p = [] ∧ getDirectoryDepth p = 0) ∨
        getDirectoryDepth p = ((pathSegments p).length : Int) - 1) ∧
      "" ∉ pathSegments p := by
  intro p
  refine ⟨le_max_left _ _, rfl, ?_, ?_⟩
  · rcases h : pathSegments p with _ | ⟨s, rest⟩
    · exact Or.inl ⟨rfl, by simp [getDirectoryDepth, h]⟩
    · refine Or.inr ?_
      simp only [getDirectoryDepth, h, List.length_cons]
      push_cast
      omega
  · intro hmem
    simp [pathSegments, List.mem_filter] at hmem

/-- Claim C5: `selectTargetFile` on an empty candidate list fails with
the `EmptyCandidateSet` message; on a singleton it returns the unique
element for every randomness value in `[0, 1)`; and in general it returns
the entry at index `Math.floor(rand * length)`, an in-range index whose
preimage under `rand` is the interval `[i/n, (i+1)/n)` — the index is
uniform when `rand` is. -/
theorem selectTargetFile_spec :
    (∀ r : ℚ, selectTargetFile [] r = .error "No files available to select as target") ∧
    (∀ (x : String) (r : ℚ), 0 ≤ r → r < 1 → selectTargetFile [x] r = .ok x) ∧
    (∀ (l : List String) (r : ℚ) (i : Nat), 0 ≤ r → r < 1 → l ≠ [] →
      selectTargetFile l r = .ok (l.getD (Int.floor (r * (l.length : ℚ))).toNat "") ∧
      (Int.floor (r * (l.length : ℚ))).toNat < l.length ∧
      ((Int.floor (r * (l.length : ℚ))).toNat = i ↔
        (i : ℚ) / (l.length : ℚ) ≤ r ∧ r < ((i : ℚ) + 1) / (l.length : ℚ))) := by
  have key : ∀ (l : List String) (r : ℚ) (i : Nat), 0 ≤ r → r < 1 → l ≠ [] →
      selectTargetFile l r = .ok (l.getD (Int.floor (r * (l.length : ℚ))).toNat "") ∧
      (Int.floor (r * (l.length : ℚ))).toNat < l.length ∧
      ((Int.floor (r * (l.length : ℚ))).toNat = i ↔
        (i : ℚ) / (l.length : ℚ) ≤ r ∧ r < ((i : ℚ) + 1) / (l.length : ℚ)) := by
    intro l r i hr0 hr1 hl
    have hn : 0 < l.length := List.length_pos.2 hl
    have hnQ : (0 : ℚ) < (l.length : ℚ) := by exact_mod_cast hn
    have hfl0 : 0 ≤ Int.floor (r * (l.length : ℚ)) :=
      Int.floor_nonneg.2 (mul_nonneg hr0 hnQ.le)
    have hflt : Int.floor (r * (l.length : ℚ)) < (l.length : ℤ) := by
      refine Int.floor_lt.2 ?_
      push_cast
      calc r * (l.length : ℚ) < 1 * (l.length : ℚ) :=
            mul_lt_mul_of_pos_right hr1 hnQ
        _ = (l.length : ℚ) := one_mul _
    refine ⟨?_, by omega, ?_, ?_⟩
    · unfold selectTargetFile
      rw [if_neg (by omega)]
    · intro hEq
      have hfe : Int.floor (r * (l.length : ℚ)) = (i : ℤ) := by omega
      have h2 := Int.floor_eq_iff.mp hfe
      constructor
      · rw [div_le_iff₀ hnQ]
        exact_mod_cast h2.1
      · rw [lt_div_iff₀ hnQ]
        exact_mod_cast h2.2
    · rintro ⟨h1, h2⟩
      have h1x : (i : ℚ) ≤ r * (l.length : ℚ) := by
        have := (div_le_iff₀ hnQ).1 h1
        linarith
      have h2x : r * (l.length : ℚ) < (i : ℚ) + 1 := by
        have := (lt_div_iff₀ hnQ).1 h2
        linarith
      have : Int.floor (r * (l.length : ℚ)) = (i : ℤ) :=
        Int.floor_eq_iff.2 ⟨by exact_mod_cast h1x, by exact_mod_cast h2x⟩
      omega
  refine ⟨fun r => rfl, ?_, key⟩
  intro x r hr0 hr1
  have h := (key [x] r 0 hr0 hr1 (by simp)).1
  have hz : Int.floor (r * ((List.length [x] : ℚ))) = 0 := by
    have h1 : ((List.length [x] : ℚ)) = 1 := by norm_num
    rw [h1, mul_one, Int.floor_eq_zero_iff]
    exact Set.mem_Ico.2 ⟨hr0, hr1⟩
  rw [h, hz]
  rfl

/-- Witness for C5: two candidates, `rand = 1/2` selects index 1. -/
theorem selectTargetFile_spec_witness :
    selectTargetFile ["a", "b"] (1/2) = .ok "b" ∧
    selectTargetFile ["only"] (1/3) = .ok "only" ∧
    selectTargetFile [] (1/2) = .error "No files available to select as target" := by
  refine ⟨?_, selectTargetFile_spec.2.1 "only" (1/3) (by norm_num) (by norm_num),
    selectTargetFile_spec.1 (1/2)⟩
  have h := (selectTargetFile_spec.2.2 ["a", "b"] (1/2) 1 (by norm_num) (by norm_num)
    (by simp)).1
  rw [h]
  norm_num

mutual
/-- The shared cap: scanning never pushes the accumulated list past
`maxFiles` (directory form). -/
theorem scanDirectory_length_le (node : FSNode) (dirPath : String)
    (maxDepth currentDepth : Nat) (fileList : List String) (maxFiles : Nat)
    (h : fileList.length ≤ maxFiles) :
    (scanDirectory node dirPath maxDepth currentDepth fileList maxFiles).length ≤ maxFiles := by
  unfold scanDirectory
  split
  · exact h
  · cases node with
    | dir name children =>
      exact scanEntries_length_le children dirPath maxDepth currentDepth fileList maxFiles h
    | file name => exact h
    | denied name => exact h
    | other name => exact h

/-- The shared cap: scanning never pushes the accumulated list past
`maxFiles` (entry-list form). -/
theorem scanEntries_length_le (entries : List FSNode) (dirPath : String)
    (maxDepth currentDepth : Nat) (fileList : List String) (maxFiles : Nat)
    (h : fileList.length ≤ maxFiles) :
    (scanEntries entries dirPath maxDepth currentDepth fileList maxFiles).length ≤ maxFiles := by
  unfold scanEntries
  cases entries with
  | nil => exact h
  | cons entry rest =>
    dsimp only
    split
    · exact h
    · rename_i hlt
      refine scanEntries_length_le rest dirPath maxDepth currentDepth _ maxFiles ?_
      cases entry with
      | file name =>
        simp only [List.length_append, List.length_cons, List.length_nil]
        omega
      | dir name children =>
        dsimp only
        split
        · exact h
        · exact scanDirectory_length_le _ _ _ _ _ _ h
      | denied name =>
        dsimp only
        split
        · exact h
        · exact scanDirectory_length_le _ _ _ _ _ _ h
      | other name => exact h
end

mutual
/-- Every entry a scan adds lies within `maxDepth - currentDepth` levels
of the scanned directory and outside every skip-listed directory
(directory form). -/
theorem scanDirectory_mem (node : FSNode) (dirPath : String) (maxDepth currentDepth : Nat)
    (fileList : List String) (maxFiles : Nat) (x : String)
    (hx : x ∈ scanDirectory node dirPath maxDepth currentDepth fileList maxFiles) :
    x ∈ fileList ∨
      (x ∈ filesWithin (maxDepth - currentDepth) dirPath node ∧ x ∈ okFiles dirPath node) := by
  unfold scanDirectory at hx
  split at hx
  · exact Or.inl hx
  · rename_i hcond
    cases node with
    | dir name children =>
      rcases scanEntries_mem children dirPath maxDepth currentDepth fileList maxFiles x hx
        with h | ⟨hw, ho⟩
      · exact Or.inl h
      · refine Or.inr ⟨?_, ?_⟩
        · rw [filesWithin, if_neg (by omega)]
          exact hw
        · rw [okFiles]
          exact ho
    | file name => exact Or.inl hx
    | denied name => exact Or.inl hx
    | other name => exact Or.inl hx

/-- Every entry a scan adds lies within `maxDepth - currentDepth` levels
of the scanned directory and outside every skip-listed directory
(entry-list form). -/
theorem scanEntries_mem (entries : List FSNode) (dirPath : String) (maxDepth currentDepth : Nat)
    (fileList : List String) (maxFiles : Nat) (x : String)
    (hx : x ∈ scanEntries entries dirPath maxDepth currentDepth fileList maxFiles) :
    x ∈ fileList ∨
      (x ∈ entriesWithin (maxDepth - currentDepth) dirPath entries ∧
        x ∈ okEntries dirPath entries) := by
  unfold scanEntries at hx
  cases entries with
  | nil => exact Or.inl hx
  | cons entry rest =>
    dsimp only at hx
    split at hx
    · exact Or.inl hx
    · cases entry with
      | file name =>
        rcases scanEntries_mem rest dirPath maxDepth currentDepth _ maxFiles x hx
          with h2 | ⟨hw, ho⟩
        · rcases List.mem_append.1 h2 with h3 | h3
          · exact Or.inl h3
          · refine Or.inr ⟨?_, ?_⟩
            · rw [entriesWithin]
              exact List.mem_append_left _ h3
            · rw [okEntries]
              exact List.mem_append_left _ h3
        · refine Or.inr ⟨?_, ?_⟩
          · rw [entriesWithin]
            exact List.mem_append_right _ hw
          · rw [okEntries]
            exact List.mem_append_right _ ho
      | dir name children =>
        rcases scanEntries_mem rest dirPath maxDepth currentDepth _ maxFiles x hx
          with h2 | ⟨hw, ho⟩
        · dsimp only at h2
          split at h2
          · exact Or.inl h2
          · rename_i hskip
            rcases scanDirectory_mem _ _ maxDepth (currentDepth + 1) fileList maxFiles x h2
              with h3 | ⟨hw3, ho3⟩
            · exact Or.inl h3
            · refine Or.inr ⟨?_, ?_⟩
              · rw [entriesWithin]
                refine List.mem_append_left _ ?_
                rw [← Nat.sub_sub] at hw3
                exact hw3
              · rw [okEntries]
                refine List.mem_append_left _ ?_
                rw [if_neg hskip]
                exact ho3
        · refine Or.inr ⟨?_, ?_⟩
          · rw [entriesWithin]
            exact List.mem_append_right _ hw
          · rw [okEntries]
            exact List.mem_append_right _ ho
      | denied name =>
        rcases scanEntries_mem rest dirPath maxDepth currentDepth _ maxFiles x hx
          with h2 | ⟨hw, ho⟩
        · dsimp only at h2
          split at h2
          · exact Or.inl h2
          · have hden : scanDirectory (FSNode.denied name)
                (joinPath dirPath (FSNode.denied name).name) maxDepth (currentDepth + 1)
                fileList maxFiles = fileList := by
              unfold scanDirectory
              split <;> rfl
            rw [hden] at h2
            exact Or.inl h2
        · refine Or.inr ⟨?_, ?_⟩
          · rw [entriesWithin]
            exact List.mem_append_right _ hw
          · rw [okEntries]
            exact List.mem_append_right _ ho
      | other name =>
        rcases scanEntries_mem rest dirPath maxDepth currentDepth _ maxFiles x hx
          with h2 | ⟨hw, ho⟩
        · exact Or.inl h2
        · refine Or.inr ⟨?_, ?_⟩
          · rw [entriesWithin]
            exact List.mem_append_right _ hw
          · rw [okEntries]
            exact List.mem_append_right _ ho
end

/-- Claim C2: starting from an empty accumulator, `scanDirectory` returns
at most `maxFiles` entries (the count is one shared cap across the whole
recursive traversal), and every returned entry lies at most `maxDepth`
directory levels below the scanned root. -/
theorem scanDirectory_bounded (node : FSNode) (dirPath : String) (maxDepth maxFiles : Nat) :
    (scanDirectory node dirPath maxDepth 0 [] maxFiles).length ≤ maxFiles ∧
    (∀ x ∈ scanDirectory node dirPath maxDepth 0 [] maxFiles,
      x ∈ filesWithin maxDepth dirPath node) := by
  refine ⟨scanDirectory_length_le node dirPath maxDepth 0 [] maxFiles (by simp), ?_⟩
  intro x hx
  rcases scanDirectory_mem node dirPath maxDepth 0 [] maxFiles x hx with h | ⟨hw, _⟩
  · simp at h
  · simpa using hw

/-- Witness for C2 on a concrete two-level tree with a small cap. -/
theorem scanDirectory_bounded_witness :
    (scanDirectory (FSNode.dir "r" [FSNode.file "a.txt", FSNode.dir "sub" [FSNode.file "b.txt"]])
        "/r" 7 0 [] 5).length ≤ 5 ∧
    "/r/sub/b.txt" ∈ filesWithin 7 "/r"
      (FSNode.dir "r" [FSNode.file "a.txt", FSNode.dir "sub" [FSNode.file "b.txt"]]) :=
  ⟨(scanDirectory_bounded
      (FSNode.dir "r" [FSNode.file "a.txt", FSNode.dir "sub" [FSNode.file "b.txt"]]) "/r" 7 5).1,
   (scanDirectory_bounded
      (FSNode.dir "r" [FSNode.file "a.txt", FSNode.dir "sub" [FSNode.file "b.txt"]]) "/r" 7 5).2
     "/r/sub/b.txt" (by decide)⟩

/-- Claim C6: every entry returned by `scanDirectory` (from an empty
accumulator) belongs to `okFiles`, the set of files reachable without
ever recursing into a directory whose name is in the skip list — so no
returned entry lies inside a skip-listed directory, at any depth. -/
theorem scanDirectory_skip_spec (node : FSNode) (dirPath : String) (maxDepth maxFiles : Nat) :
    ∀ x ∈ scanDirectory node dirPath maxDepth 0 [] maxFiles, x ∈ okFiles dirPath node := by
  intro x hx
  rcases scanDirectory_mem node dirPath maxDepth 0 [] maxFiles x hx with h | ⟨_, ho⟩
  · simp at h
  · exact ho

/-- Witness for C6 on a tree containing a populated skip-listed
directory. -/
theorem scanDirectory_skip_spec_witness :
    "/r/a.txt" ∈ okFiles "/r"
      (FSNode.dir "r" [FSNode.file "a.txt", FSNode.dir "node_modules" [FSNode.file "x.txt"]]) :=
  scanDirectory_skip_spec
    (FSNode.dir "r" [FSNode.file "a.txt", FSNode.dir "node_modules" [FSNode.file "x.txt"]])
    "/r" 7 100 "/r/a.txt" (by decide)

/-- The root loop keeps the aggregate below the global cap. -/
theorem scanRootsLoop_length_le (env : String → Option FSNode) (dirs : List String)
    (allFiles : List String) (h : allFiles.length ≤ totalMaxFiles) :
    (scanRootsLoop env dirs allFiles).length ≤ totalMaxFiles := by
  induction dirs generalizing allFiles with
  | nil => simpa [scanRootsLoop] using h
  | cons dir rest ih =>
    rw [scanRootsLoop]
    dsimp only
    split
    · exact h
    · rename_i hlt
      refine ih _ ?_
      have hfiles := scanDirectory_length_le ((env dir).getD (.other "")) dir 7 0 []
        (totalMaxFiles - allFiles.length) (by simp)
      simp only [List.length_append]
      omega

/-- Claim C3: the root scanner walks the surviving roots in their fixed
order, handing each root's `scanDirectory` call the remaining capacity
`totalMaxFiles - collectedSoFar` and breaking once the global cap is
reached (the step equation), and consequently every successful result
holds at most 20000 entries. -/
theorem scanCommonDirectories_cap :
    (∀ (env : String → Option FSNode) (dir : String) (rest : List String) (acc : List String),
      scanRootsLoop env (dir :: rest) acc =
        if acc.length ≥ totalMaxFiles then acc
        else scanRootsLoop env rest
          (acc ++ scanDirectory ((env dir).getD (.other "")) dir 7 0 []
            (totalMaxFiles - acc.length))) ∧
    (∀ (env : String → Option FSNode) (home userProfile : Option String) (l : List String),
      scanCommonDirectories env home userProfile = .ok l → l.length ≤ 20000) := by
  constructor
  · intro env dir rest acc
    rfl
  · intro env home userProfile l hok
    unfold scanCommonDirectories at hok
    dsimp only at hok
    split at hok
    · exact absurd hok (by simp)
    · split at hok
      · exact absurd hok (by simp)
      · rw [Except.ok.injEq] at hok
        subst hok
        exact scanRootsLoop_length_le env
          (existingDirectories env (resolveUserProfile home userProfile)) [] (by simp)

/-- Witness for C3 on the sample filesystem. -/
theorem scanCommonDirectories_cap_witness :
    (["/home/u/Documents/a.txt"] : List String).length ≤ 20000 :=
  scanCommonDirectories_cap.2 sampleEnv (some "/home/u") none ["/home/u/Documents/a.txt"]
    (by rfl)

/-- Claim C4: the root scanner fails with the `NoAccessibleRoots` message
exactly when no well-known root survives the existence filter, fails with
the `NoFilesFound` message exactly when the roots survive but the
aggregated scan is empty, returns the aggregate in every other case, and
propagates no other error (scanning itself is total: per-entry and
per-directory filesystem failures are absorbed by `scanDirectory`). -/
theorem scanCommonDirectories_errors (env : String → Option FSNode)
    (home userProfile : Option String) :
    (scanCommonDirectories env home userProfile = .error "No accessible directories found" ↔
      existingDirectories env (resolveUserProfile home userProfile) = []) ∧
    (scanCommonDirectories env home userProfile =
        .error "No files found in any accessible directories" ↔
      (existingDirectories env (resolveUserProfile home userProfile) ≠ [] ∧
        scanRootsLoop env (existingDirectories env (resolveUserProfile home userProfile)) []
          = [])) ∧
    (∀ e, scanCommonDirectories env home userProfile = .error e →
      e = "No accessible directories found" ∨
        e = "No files found in any accessible directories") ∧
    ((existingDirectories env (resolveUserProfile home userProfile) ≠ [] ∧
        scanRootsLoop env (existingDirectories env (resolveUserProfile home userProfile)) []
          ≠ []) →
      scanCommonDirectories env home userProfile =
        .ok (scanRootsLoop env
          (existingDirectories env (resolveUserProfile home userProfile)) [])) := by
  have hDlen : (existingDirectories env (resolveUserProfile home userProfile)).length = 0 ↔
      existingDirectories env (resolveUserProfile home userProfile) = [] :=
    List.length_eq_zero
  have hLlen : (scanRootsLoop env
        (existingDirectories env (resolveUserProfile home userProfile)) []).length = 0 ↔
      scanRootsLoop env (existingDirectories env (resolveUserProfile home userProfile)) []
        = [] :=
    List.length_eq_zero
  unfold scanCommonDirectories
  by_cases h1 : (existingDirectories env (resolveUserProfile home userProfile)).length = 0
  · rw [if_pos h1]
    refine ⟨?_, ?_, ?_, ?_⟩
    · simp [hDlen.1 h1]
    · constructor
      · intro h
        rw [Except.error.injEq] at h
        exact absurd h (by decide)
      · rintro ⟨hne, _⟩
        exact absurd (hDlen.1 h1) hne
    · intro e he
      rw [Except.error.injEq] at he
      exact Or.inl he.symm
    · rintro ⟨hne, _⟩
      exact absurd (hDlen.1 h1) hne
  · rw [if_neg h1]
    dsimp only
    by_cases h2 : (scanRootsLoop env
        (existingDirectories env (resolveUserProfile home userProfile)) []).length = 0
    · rw [if_pos h2]
      refine ⟨?_, ?_, ?_, ?_⟩
      · constructor
        · intro h
          rw [Except.error.injEq] at h
          exact absurd h (by decide)
        · intro hD
          exact (h1 (hDlen.2 hD)).elim
      · constructor
        · intro _
          exact ⟨fun hD => h1 (hDlen.2 hD), hLlen.1 h2⟩
        · intro _
          rfl
      · intro e he
        rw [Except.error.injEq] at he
        exact Or.inr he.symm
      · rintro ⟨_, hne⟩
        exact absurd (hLlen.1 h2) hne
    · rw [if_neg h2]
      refine ⟨?_, ?_, ?_, ?_⟩
      · constructor
        · intro h
          exact absurd h (by simp)
        · intro hD
          exact (h1 (hDlen.2 hD)).elim
      · constructor
        · intro h
          exact absurd h (by simp)
        · rintro ⟨_, hL⟩
          exact (h2 (hLlen.2 hL)).elim
      · intro e he
        exact absurd he (by simp)
      · intro _
        rfl

/-- Witness for C4: the sample filesystem takes the success path. -/
theorem scanCommonDirectories_errors_witness :
    scanCommonDirectories sampleEnv (some "/home/u") none =
      .ok (scanRootsLoop sampleEnv
        (existingDirectories sampleEnv (resolveUserProfile (some "/home/u") none)) []) :=
  (scanCommonDirectories_errors sampleEnv (some "/home/u") none).2.2.2
    ⟨by decide, by decide⟩

/-- Witness for C8 at a concrete path: depth of a two-directory path is
2 and its segment list is as claimed. -/
theorem getDirectoryDepth_spec_witness :
    getDirectoryDepth "/home/docs/x.txt" = 2 ∧
    "" ∉ pathSegments "/home/docs/x.txt" := by
  have h := getDirectoryDepth_spec "/home/docs/x.txt"
  refine ⟨?_, h.2.2.2⟩
  rw [h.2.1]
  decide
